import Mathlib

/-!
Key-position labels of the two 42-key layouts.

A verification development for `config/key-labels/42.h` (Corne Choc Pro) and
`config/key-labels/xk42.h` (xk42).  Both headers consist of object-like
preprocessor macros only: 42 `#define NAME NUMBER` lines, three grouping macros
whose bodies are sequences of those names, and a diagram in the header comment.

The embedding keeps each header as the table it is: every `#define` line becomes
one `Define` record (with its source line), every grouping macro one `Group`
record, and the header comment's diagram one list of rows.  Name resolution and
macro expansion follow the C preprocessor for object-like macros.
-/

namespace KeyLabels

/-- One line `#define NAME NUMBER` of a header: its source line, the macro name
and the integer literal that is its body. -/
structure Define where
  line : Nat
  name : String
  value : Nat
deriving DecidableEq, Repr

/-- One grouping macro `#define NAME ident ident ...`: its source line, the macro
name and the identifiers of its body, in order. -/
structure Group where
  line : Nat
  name : String
  body : List String
deriving DecidableEq, Repr

/-- A preprocessing token after expansion: an identifier left alone, or a number. -/
inductive Token where
  | ident (s : String)
  | num (n : Nat)
deriving DecidableEq, Repr

/-- A key-label header: the diagram rows printed in its leading comment, the
key-position `#define` lines in source order, and the three grouping macros. -/
structure Layout where
  diagram : List (List Nat)
  defines : List Define
  KEYS_L : Group
  KEYS_R : Group
  THUMBS : Group
deriving Repr

/-- The header `config/key-labels/42.h` (Corne Choc Pro). -/
def corne : Layout where
  diagram :=
    [ [ 0,  1,  2,  3,  4,  5,  7,  8,  9, 10, 11, 12],
      [14, 15, 16, 17, 18, 19, 21, 22, 23, 24, 25, 26],
      [28, 29, 30, 31, 32, 33, 35, 36, 37, 38, 39, 40],
      [44, 45, 46, 48, 49, 50] ]
  defines :=
    [ ⟨20, "LT5", 0⟩, ⟨21, "LT4", 1⟩, ⟨22, "LT3", 2⟩, ⟨23, "LT2", 3⟩,
      ⟨24, "LT1", 4⟩, ⟨25, "LT0", 5⟩, ⟨26, "RT0", 7⟩, ⟨27, "RT1", 8⟩,
      ⟨28, "RT2", 9⟩, ⟨29, "RT3", 10⟩, ⟨30, "RT4", 11⟩, ⟨31, "RT5", 12⟩,
      ⟨34, "LM5", 14⟩, ⟨35, "LM4", 15⟩, ⟨36, "LM3", 16⟩, ⟨37, "LM2", 17⟩,
      ⟨38, "LM1", 18⟩, ⟨39, "LM0", 19⟩, ⟨40, "RM0", 21⟩, ⟨41, "RM1", 22⟩,
      ⟨42, "RM2", 23⟩, ⟨43, "RM3", 24⟩, ⟨44, "RM4", 25⟩, ⟨45, "RM5", 26⟩,
      ⟨48, "LB5", 28⟩, ⟨49, "LB4", 29⟩, ⟨50, "LB3", 30⟩, ⟨51, "LB2", 31⟩,
      ⟨52, "LB1", 32⟩, ⟨53, "LB0", 33⟩, ⟨54, "RB0", 35⟩, ⟨55, "RB1", 36⟩,
      ⟨56, "RB2", 37⟩, ⟨57, "RB3", 38⟩, ⟨58, "RB4", 39⟩, ⟨59, "RB5", 40⟩,
      ⟨62, "LH2", 45⟩, ⟨63, "LH1", 46⟩, ⟨64, "LH0", 47⟩, ⟨65, "RH0", 50⟩,
      ⟨66, "RH1", 51⟩, ⟨67, "RH2", 52⟩ ]
  KEYS_L := ⟨69, "KEYS_L",
    ["LT0", "LT1", "LT2", "LT3", "LT4", "LM0", "LM1", "LM2", "LM3", "LM4",
     "LB0", "LB1", "LB2", "LB3", "LB4"]⟩
  KEYS_R := ⟨70, "KEYS_R",
    ["RT0", "RT1", "RT2", "RT3", "RT4", "RM0", "RM1", "RM2", "RM3", "RM4",
     "RB0", "RB1", "RB2", "RB3", "RB4"]⟩
  THUMBS := ⟨71, "THUMBS", ["LH2", "LH1", "LH0", "RH0", "RH1", "RH2"]⟩

/-- The header `config/key-labels/xk42.h` (xk42). -/
def xk42 : Layout where
  diagram :=
    [ [ 0,  1,  2,  3,  4,  5,  6,  7,  8,  9, 10, 11],
      [12, 13, 14, 15, 16, 17, 18, 19, 20, 21, 22, 23],
      [24, 25, 26, 27, 28, 29, 30, 31, 32, 33, 34, 35],
      [36, 37, 38, 39, 40, 41] ]
  defines :=
    [ ⟨20, "LT5", 0⟩, ⟨21, "LT4", 1⟩, ⟨22, "LT3", 2⟩, ⟨23, "LT2", 3⟩,
      ⟨24, "LT1", 4⟩, ⟨25, "LT0", 5⟩, ⟨26, "RT0", 6⟩, ⟨27, "RT1", 7⟩,
      ⟨28, "RT2", 8⟩, ⟨29, "RT3", 9⟩, ⟨30, "RT4", 10⟩, ⟨31, "RT5", 11⟩,
      ⟨34, "LM5", 12⟩, ⟨35, "LM4", 13⟩, ⟨36, "LM3", 14⟩, ⟨37, "LM2", 15⟩,
      ⟨38, "LM1", 16⟩, ⟨39, "LM0", 17⟩, ⟨40, "RM0", 18⟩, ⟨41, "RM1", 19⟩,
      ⟨42, "RM2", 20⟩, ⟨43, "RM3", 21⟩, ⟨44, "RM4", 22⟩, ⟨45, "RM5", 23⟩,
      ⟨48, "LB5", 24⟩, ⟨49, "LB4", 25⟩, ⟨50, "LB3", 26⟩, ⟨51, "LB2", 27⟩,
      ⟨52, "LB1", 28⟩, ⟨53, "LB0", 29⟩, ⟨54, "RB0", 30⟩, ⟨55, "RB1", 31⟩,
      ⟨56, "RB2", 32⟩, ⟨57, "RB3", 33⟩, ⟨58, "RB4", 34⟩, ⟨59, "RB5", 35⟩,
      ⟨62, "LH2", 36⟩, ⟨63, "LH1", 37⟩, ⟨64, "LH0", 38⟩, ⟨65, "RH0", 39⟩,
      ⟨66, "RH1", 40⟩, ⟨67, "RH2", 41⟩ ]
  KEYS_L := ⟨69, "KEYS_L",
    ["LT0", "LT1", "LT2", "LT3", "LT4", "LM0", "LM1", "LM2", "LM3", "LM4",
     "LB0", "LB1", "LB2", "LB3", "LB4"]⟩
  KEYS_R := ⟨70, "KEYS_R",
    ["RT0", "RT1", "RT2", "RT3", "RT4", "RM0", "RM1", "RM2", "RM3", "RM4",
     "RB0", "RB1", "RB2", "RB3", "RB4"]⟩
  THUMBS := ⟨71, "THUMBS", ["LH2", "LH1", "LH0", "RH0", "RH1", "RH2"]⟩

/-- The names a header defines as key positions, in source order. -/
def names (L : Layout) : List String :=
  L.defines.map Define.name

/-- The integer bodies of a header's key-position macros, in source order. -/
def indices (L : Layout) : List Nat :=
  L.defines.map Define.value

/-- The definition of `n` in force after the whole list of `#define` lines has
been read: a later line for the same name replaces an earlier one. -/
def resolve : List Define → String → Option Nat
  | [], _ => none
  | d :: ds, n =>
    match resolve ds n with
    | some v => some v
    | none => if d.name = n then some d.value else none

/-- The index a layout binds to a name, if the name is defined there. -/
def index (L : Layout) (n : String) : Option Nat :=
  resolve L.defines n

/-- Expansion of a grouping macro's body: every identifier that is a defined
key-position macro is replaced by its number, any other identifier stays. -/
def expand (L : Layout) (g : Group) : List Token :=
  g.body.map fun n =>
    match index L n with
    | some v => Token.num v
    | none => Token.ident n

/-- The numbers among a list of expanded tokens, in order. -/
def numbers : List Token → List Nat
  | [] => []
  | Token.num v :: ts => v :: numbers ts
  | Token.ident _ :: ts => numbers ts

/-- The two headers of the repository. -/
def layouts : List Layout := [corne, xk42]

/-- Source lines of the section comments "Row 0 - Top", "Row 1 - Middle",
"Row 2 - Bottom" and "Row 3 - Thumbs"; they are the same in both headers. -/
def sectionLines : List Nat := [19, 33, 47, 61]

/-- The row a source line belongs to: the number of the last section comment
at or above it (0 when none is above). -/
def rowOfLine (l : Nat) : Nat :=
  (sectionLines.filter fun s => s ≤ l).length - 1

/-- The names defined in the section of row `r`, in source order, which is the
left-to-right order of the diagram row. -/
def rowNames (L : Layout) (r : Nat) : List String :=
  (L.defines.filter fun d => rowOfLine d.line = r).map Define.name

/-- The diagram read as a table: the `i`-th name of row `r` paired with the
`i`-th number printed in diagram row `r`. -/
def diagramTable (L : Layout) : List (String × Nat) :=
  (List.range L.diagram.length).flatMap fun r =>
    (rowNames L r).zip (L.diagram.getD r [])

/-- The number the header diagram prints at the position of a key. -/
def diagramNumber (L : Layout) (n : String) : Option Nat :=
  (diagramTable L).lookup n

/-- The hand letter of a key-position name: its first character. -/
def hand (n : String) : Option Char :=
  n.data.get? 0

/-- The row letter of a key-position name: its second character. -/
def rowLetter (n : String) : Option Char :=
  n.data.get? 1

/-- The column number of a key-position name: its third and last character,
read as a decimal digit. -/
def column (n : String) : Option Nat :=
  match n.data with
  | [_, _, c] => if c.isDigit then some (c.toNat - 48) else none
  | _ => none

/-- The name of the key on the other hand with the same row and column: the
hand letter is swapped between L and R, the rest of the name is kept. -/
def mirror (n : String) : String :=
  match n.data with
  | 'L' :: cs => String.mk ('R' :: cs)
  | 'R' :: cs => String.mk ('L' :: cs)
  | _ => n

/-- The name built from a hand letter, a row letter and a column number. -/
def keyName (h r : Char) (c : Nat) : String :=
  String.mk [h, r, Char.ofNat (48 + c)]

/-- The 36 main-row names as the naming convention describes them: hand L or R,
row T, M or B, column 0 to 5. -/
def specMainNames : List String :=
  ['L', 'R'].flatMap fun h =>
    ['T', 'M', 'B'].flatMap fun r =>
      (List.range 6).map fun c => keyName h r c

/-- The 6 thumb names as the naming convention describes them: hand L or R,
row H, column 0 to 2. -/
def specThumbNames : List String :=
  ['L', 'R'].flatMap fun h =>
    (List.range 3).map fun c => keyName h 'H' c

/-- The index sequence a grouping macro expands to. -/
def groupIndices (L : Layout) (g : Group) : List Nat :=
  numbers (expand L g)

/-- The three grouping macros of a header, in source order. -/
def groups (L : Layout) : List Group :=
  [L.KEYS_L, L.KEYS_R, L.THUMBS]

/-- The indices of the thumb keys of a layout: the values of the names defined
in the section "Row 3 - Thumbs", in source order. -/
def thumbIndices (L : Layout) : List Nat :=
  (rowNames L 3).filterMap (index L)

/-- The `g`-th block of five consecutive entries of a sequence. -/
def rowGroup (xs : List Nat) (g : Nat) : List Nat :=
  (xs.drop (5 * g)).take 5

/-- The name a layout binds to an index: the name of the first key-position
macro whose body is that number, if there is one. -/
def nameOfIndex (L : Layout) (i : Nat) : Option String :=
  (L.defines.find? fun d => d.value = i).map Define.name

/-- The index layout `B` gives to the name that layout `A` binds to `i`. -/
def renumber (A B : Layout) (i : Nat) : Option Nat :=
  (nameOfIndex A i).bind (index B)

/-- The value of the expression `a - b` over two key-position macros of a
layout, when both names are defined. -/
def difference (L : Layout) (a b : String) : Option Int :=
  match index L a, index L b with
  | some x, some y => some ((x : Int) - (y : Int))
  | _, _ => none

/-- The names of a layout that occur in none of its three grouping macros, in
source order. -/
def ungrouped (L : Layout) : List String :=
  (names L).filter fun n =>
    decide (n ∉ L.KEYS_L.body ∧ n ∉ L.KEYS_R.body ∧ n ∉ L.THUMBS.body)

/-- The number of keys of a layout whose index is strictly below `i`. -/
def keysBelow (L : Layout) (i : Nat) : Nat :=
  (L.defines.filter fun d => d.value < i).length

/-- The row a key-position name encodes in its row letter: 0 for T, 1 for M,
2 for B and 3 for H. -/
def rowNumber (n : String) : Option Nat :=
  match rowLetter n with
  | some 'T' => some 0
  | some 'M' => some 1
  | some 'B' => some 2
  | some 'H' => some 3
  | _ => none

set_option maxRecDepth 100000
set_option synthInstance.maxSize 1000

/-! ## Name resolution -/

theorem mem_layouts {L : Layout} (hL : L ∈ layouts) : L = corne ∨ L = xk42 := by
  simpa [layouts] using hL

theorem resolve_some_mem {ds : List Define} {n : String} {v : Nat}
    (h : resolve ds n = some v) : ∃ d ∈ ds, d.name = n ∧ d.value = v := by
  induction ds with
  | nil => simp [resolve] at h
  | cons d ds ih =>
    unfold resolve at h
    cases hr : resolve ds n with
    | some w =>
      rw [hr] at h
      simp only [Option.some.injEq] at h
      subst h
      obtain ⟨e, he, hn, hv⟩ := ih hr
      exact ⟨e, List.mem_cons_of_mem _ he, hn, hv⟩
    | none =>
      rw [hr] at h
      by_cases hd : d.name = n
      · simp only [hd, if_true, Option.some.injEq] at h
        exact ⟨d, List.mem_cons_self _ _, hd, h⟩
      · simp [hd] at h

theorem resolve_some_of_mem {ds : List Define} {n : String}
    (h : n ∈ ds.map Define.name) : ∃ v, resolve ds n = some v := by
  induction ds with
  | nil => simp at h
  | cons d ds ih =>
    unfold resolve
    cases hr : resolve ds n with
    | some w => exact ⟨w, rfl⟩
    | none =>
      have hd : d.name = n := by
        rw [List.map_cons, List.mem_cons] at h
        rcases h with h1 | h2
        · exact h1.symm
        · obtain ⟨v, hv⟩ := ih h2
          rw [hr] at hv
          cases hv
      exact ⟨d.value, by simp [hd]⟩

theorem resolve_none_of_not_mem {ds : List Define} {n : String}
    (h : n ∉ ds.map Define.name) : resolve ds n = none := by
  cases hr : resolve ds n with
  | none => rfl
  | some v =>
    obtain ⟨d, hd, hn, _⟩ := resolve_some_mem hr
    exact absurd (List.mem_map.2 ⟨d, hd, hn⟩) h

theorem index_isSome_iff (L : Layout) (n : String) :
    (index L n).isSome ↔ n ∈ names L := by
  constructor
  · intro h
    by_contra hn
    have hnone : index L n = none := resolve_none_of_not_mem hn
    rw [hnone] at h
    cases h
  · intro h
    obtain ⟨v, hv⟩ := resolve_some_of_mem h
    show (resolve L.defines n).isSome
    rw [hv]
    rfl

theorem resolve_inj_of_nodup {ds : List Define} (hnd : (ds.map Define.value).Nodup)
    {a b : String} {v : Nat} (ha : resolve ds a = some v) (hb : resolve ds b = some v) :
    a = b := by
  obtain ⟨d, hd, hdn, hdv⟩ := resolve_some_mem ha
  obtain ⟨e, he, hen, hev⟩ := resolve_some_mem hb
  have hde : d = e := List.inj_on_of_nodup_map hnd hd he (hdv.trans hev.symm)
  rw [← hdn, ← hen, hde]

theorem indices_nodup {L : Layout} (hL : L ∈ layouts) : (indices L).Nodup := by
  rcases mem_layouts hL with rfl | rfl <;> decide

theorem names_nodup {L : Layout} (hL : L ∈ layouts) : (names L).Nodup := by
  rcases mem_layouts hL with rfl | rfl <;> decide

theorem names_corne_eq_xk42 : names corne = names xk42 := by decide

theorem indices_corne_eq : indices corne =
    [0, 1, 2, 3, 4, 5, 7, 8, 9, 10, 11, 12, 14, 15, 16, 17, 18, 19, 21, 22, 23,
     24, 25, 26, 28, 29, 30, 31, 32, 33, 35, 36, 37, 38, 39, 40, 45, 46, 47,
     50, 51, 52] := by decide

theorem indices_xk42_eq : indices xk42 = List.range 42 := by decide

/-! ## The claims -/

/-- C1: in each of the two layouts the mapping from the defined key names to
indices is injective: two distinct names defined in the same header are both
bound to an index, and the two indices differ. -/
theorem index_injective (L : Layout) (hL : L ∈ layouts) (a b : String)
    (ha : a ∈ names L) (hb : b ∈ names L) (hab : a ≠ b) :
    ∃ i j, index L a = some i ∧ index L b = some j ∧ i ≠ j := by
  obtain ⟨i, hi⟩ := resolve_some_of_mem ha
  obtain ⟨j, hj⟩ := resolve_some_of_mem hb
  refine ⟨i, j, hi, hj, fun hij => hab ?_⟩
  subst hij
  exact resolve_inj_of_nodup (indices_nodup hL) hi hj

/-- Witness for C1: the names LT0 and RT0 of the Corne Choc Pro header. -/
theorem index_injective_witness :
    ∃ i j, index corne "LT0" = some i ∧ index corne "RT0" = some j ∧ i ≠ j :=
  index_injective corne (List.mem_cons_self _ _) "LT0" "RT0"
    (by decide) (by decide) (by decide)

/-- C2: the Corne Choc Pro header binds LT5..LT0 to 0..5, RT0..RT5 to 7..12,
LM5..LM0 to 14..19, RM0..RM5 to 21..26, LB5..LB0 to 28..33, RB0..RB5 to 35..40,
LH2, LH1, LH0 to 45, 46, 47 and RH0, RH1, RH2 to 50, 51, 52; the indices 6, 20,
34, 48 and 49 are unused, and the set of used indices is exactly
0..5, 7..12, 14..19, 21..26, 28..33, 35..40, 45..47, 50..52. -/
theorem corne_indices_exact :
    (["LT5", "LT4", "LT3", "LT2", "LT1", "LT0"].map (index corne)
        = [0, 1, 2, 3, 4, 5].map some ∧
     ["RT0", "RT1", "RT2", "RT3", "RT4", "RT5"].map (index corne)
        = [7, 8, 9, 10, 11, 12].map some ∧
     ["LM5", "LM4", "LM3", "LM2", "LM1", "LM0"].map (index corne)
        = [14, 15, 16, 17, 18, 19].map some ∧
     ["RM0", "RM1", "RM2", "RM3", "RM4", "RM5"].map (index corne)
        = [21, 22, 23, 24, 25, 26].map some ∧
     ["LB5", "LB4", "LB3", "LB2", "LB1", "LB0"].map (index corne)
        = [28, 29, 30, 31, 32, 33].map some ∧
     ["RB0", "RB1", "RB2", "RB3", "RB4", "RB5"].map (index corne)
        = [35, 36, 37, 38, 39, 40].map some ∧
     ["LH2", "LH1", "LH0"].map (index corne) = [45, 46, 47].map some ∧
     ["RH0", "RH1", "RH2"].map (index corne) = [50, 51, 52].map some) ∧
    (6 ∉ indices corne ∧ 20 ∉ indices corne ∧ 34 ∉ indices corne ∧
     48 ∉ indices corne ∧ 49 ∉ indices corne) ∧
    ∀ i, i ∈ indices corne ↔
      (i ≤ 5 ∨ (7 ≤ i ∧ i ≤ 12) ∨ (14 ≤ i ∧ i ≤ 19) ∨ (21 ≤ i ∧ i ≤ 26) ∨
       (28 ≤ i ∧ i ≤ 33) ∨ (35 ≤ i ∧ i ≤ 40) ∨ (45 ≤ i ∧ i ≤ 47) ∨
       (50 ≤ i ∧ i ≤ 52)) := by
  refine ⟨by decide, by decide, fun i => ?_⟩
  rw [indices_corne_eq]
  simp only [List.mem_cons, List.mem_singleton, List.not_mem_nil, or_false]
  omega

/-- C3: the xk42 header numbers its keys contiguously: row 0 (LT5..LT0,
RT0..RT5) is 0..11, row 1 (LM5..LM0, RM0..RM5) is 12..23, row 2 (LB5..LB0,
RB0..RB5) is 24..35 and the thumb row (LH2, LH1, LH0, RH0, RH1, RH2) is 36..41,
each row in the left-to-right order of the header diagram; the 42 defined
indices are exactly the numbers 0 to 41. -/
theorem xk42_indices_contiguous :
    (["LT5", "LT4", "LT3", "LT2", "LT1", "LT0",
      "RT0", "RT1", "RT2", "RT3", "RT4", "RT5"].map (index xk42)
        = (List.range' 0 12).map some ∧
     ["LM5", "LM4", "LM3", "LM2", "LM1", "LM0",
      "RM0", "RM1", "RM2", "RM3", "RM4", "RM5"].map (index xk42)
        = (List.range' 12 12).map some ∧
     ["LB5", "LB4", "LB3", "LB2", "LB1", "LB0",
      "RB0", "RB1", "RB2", "RB3", "RB4", "RB5"].map (index xk42)
        = (List.range' 24 12).map some ∧
     ["LH2", "LH1", "LH0", "RH0", "RH1", "RH2"].map (index xk42)
        = (List.range' 36 6).map some) ∧
    (List.range 4).map (fun r => (rowNames xk42 r).map (index xk42))
      = xk42.diagram.map (fun row => row.map some) ∧
    (indices xk42).length = 42 ∧
    ∀ i, i ∈ indices xk42 ↔ i < 42 := by
  refine ⟨by decide, by decide, by decide, fun i => ?_⟩
  rw [indices_xk42_eq]
  exact List.mem_range

/-- C4, evaluated on the code: in the Corne Choc Pro header the three main rows
of the comment diagram agree with the defined indices, but the thumb row does
not: the diagram prints 44 45 46 48 49 50 at LH2 LH1 LH0 RH0 RH1 RH2 while the
macros are defined as 45 46 47 50 51 52, so every thumb key differs. -/
theorem corne_thumb_diagram_mismatch :
    (∀ r < 3, ∀ n ∈ rowNames corne r, diagramNumber corne n = index corne n) ∧
    rowNames corne 3 = ["LH2", "LH1", "LH0", "RH0", "RH1", "RH2"] ∧
    (rowNames corne 3).map (diagramNumber corne)
      = [44, 45, 46, 48, 49, 50].map some ∧
    (rowNames corne 3).map (index corne) = [45, 46, 47, 50, 51, 52].map some ∧
    ∀ n ∈ rowNames corne 3, diagramNumber corne n ≠ index corne n := by
  decide

/-- C5: each layout defines exactly 42 key-position names, all different: the
36 main-row names (hand L or R, row T, M or B, column 0 to 5) and the 6 thumb
names (hand L or R, row H, column 0 to 2), and no name outside these. -/
theorem names_exactly_forty_two (L : Layout) (hL : L ∈ layouts) :
    (names L).length = 42 ∧ (names L).Nodup ∧
    specMainNames.length = 36 ∧ specThumbNames.length = 6 ∧
    (specMainNames ++ specThumbNames).Nodup ∧
    ((names L).filter fun n => n ∈ specMainNames).length = 36 ∧
    ((names L).filter fun n => n ∈ specThumbNames).length = 6 ∧
    ∀ n, n ∈ names L ↔ n ∈ specMainNames ∨ n ∈ specThumbNames := by
  have hsub : ∀ n ∈ names L, n ∈ specMainNames ++ specThumbNames := by
    rcases mem_layouts hL with rfl | rfl <;> decide
  have hsup : ∀ n ∈ specMainNames ++ specThumbNames, n ∈ names L := by
    rcases mem_layouts hL with rfl | rfl <;> decide
  have hcount : (names L).length = 42 ∧
      ((names L).filter fun n => n ∈ specMainNames).length = 36 ∧
      ((names L).filter fun n => n ∈ specThumbNames).length = 6 := by
    rcases mem_layouts hL with rfl | rfl <;> decide
  refine ⟨hcount.1, names_nodup hL, by decide, by decide, by decide,
    hcount.2.1, hcount.2.2, fun n => ?_⟩
  rw [← List.mem_append]
  exact ⟨hsub n, hsup n⟩

/-- Witness for C5: the xk42 header. -/
theorem names_exactly_forty_two_witness :
    xk42 ∈ layouts ∧ (names xk42).length = 42 ∧
    ∀ n, n ∈ names xk42 ↔ n ∈ specMainNames ∨ n ∈ specThumbNames :=
  have h := names_exactly_forty_two xk42 (by simp [layouts])
  ⟨by simp [layouts], h.1, h.2.2.2.2.2.2.2⟩

/-- C6: the two headers define the same set of key-position names (a name is
defined in one exactly when it is defined in the other), while the two
name-to-index mappings are different functions: RT0 is 7 in the Corne Choc Pro
header and 6 in the xk42 header. -/
theorem same_names_different_indices :
    (∀ n, n ∈ names corne ↔ n ∈ names xk42) ∧
    (∀ n, (index corne n).isSome ↔ (index xk42 n).isSome) ∧
    index corne ≠ index xk42 ∧
    (index corne "RT0" = some 7 ∧ index xk42 "RT0" = some 6) := by
  have hne : index corne "RT0" = some 7 ∧ index xk42 "RT0" = some 6 := by decide
  refine ⟨fun n => by rw [names_corne_eq_xk42], fun n => ?_, fun h => ?_, hne⟩
  · rw [index_isSome_iff, index_isSome_iff, names_corne_eq_xk42]
  · have h7 := hne.1
    rw [h, hne.2] at h7
    cases h7

/-- C7: in each layout KEYS_L expands to 15 indices, KEYS_R to 15 indices and
THUMBS to 6 indices, and every element of each of the three sequences is the
value of a key-position macro defined on an earlier line of the same header. -/
theorem groups_expand_to_defined_indices (L : Layout) (hL : L ∈ layouts) :
    ((expand L L.KEYS_L).length = 15 ∧ (groupIndices L L.KEYS_L).length = 15) ∧
    ((expand L L.KEYS_R).length = 15 ∧ (groupIndices L L.KEYS_R).length = 15) ∧
    ((expand L L.THUMBS).length = 6 ∧ (groupIndices L L.THUMBS).length = 6) ∧
    ∀ g ∈ groups L, ∀ k < g.body.length,
      ∃ d ∈ L.defines, d.line < g.line ∧ g.body[k]? = some d.name ∧
        (expand L g)[k]? = some (Token.num d.value) ∧
        (groupIndices L g)[k]? = some d.value := by
  rcases mem_layouts hL with rfl | rfl <;> decide

/-- Witness for C7: the Corne Choc Pro header. -/
theorem groups_expand_to_defined_indices_witness :
    corne ∈ layouts ∧ (groupIndices corne corne.KEYS_L).length = 15 ∧
    (groupIndices corne corne.KEYS_R).length = 15 ∧
    (groupIndices corne corne.THUMBS).length = 6 :=
  have h := groups_expand_to_defined_indices corne (by simp [layouts])
  ⟨by simp [layouts], h.1.2, h.2.1.2, h.2.2.1.2⟩

/-- C8: in both layouts THUMBS lists the thumb keys in the left-to-right order
of the thumb row: LH2, LH1, LH0, RH0, RH1, RH2; its index sequence is strictly
increasing, its first element is the smallest and its last element the largest
thumb index of the layout. -/
theorem thumbs_left_to_right (L : Layout) (hL : L ∈ layouts) :
    L.THUMBS.body = ["LH2", "LH1", "LH0", "RH0", "RH1", "RH2"] ∧
    L.THUMBS.body = rowNames L 3 ∧
    (groupIndices L L.THUMBS).Pairwise (fun x y => x < y) ∧
    ∃ lo hi, (groupIndices L L.THUMBS).head? = some lo ∧
      (groupIndices L L.THUMBS).getLast? = some hi ∧
      index L "LH2" = some lo ∧ index L "RH2" = some hi ∧
      lo ∈ thumbIndices L ∧ hi ∈ thumbIndices L ∧
      ∀ i ∈ thumbIndices L, lo ≤ i ∧ i ≤ hi := by
  rcases mem_layouts hL with rfl | rfl
  · exact ⟨by decide, by decide, by decide, 45, 52, by decide⟩
  · exact ⟨by decide, by decide, by decide, 36, 41, by decide⟩

/-- Witness for C8: the xk42 header. -/
theorem thumbs_left_to_right_witness :
    xk42 ∈ layouts ∧ (groupIndices xk42 xk42.THUMBS).Pairwise (fun x y => x < y) :=
  ⟨by simp [layouts], (thumbs_left_to_right xk42 (by simp [layouts])).2.2.1⟩

/-- C9 as stated fails: in the Corne Choc Pro header KEYS_L expands to
5 4 3 2 1 19 18 17 16 15 33 32 31 30 29, which is not strictly increasing, and
neither is its first group of five entries. -/
theorem keys_l_not_increasing :
    groupIndices corne corne.KEYS_L
      = [5, 4, 3, 2, 1, 19, 18, 17, 16, 15, 33, 32, 31, 30, 29] ∧
    ¬ (groupIndices corne corne.KEYS_L).Pairwise (fun x y => x < y) ∧
    ¬ (rowGroup (groupIndices corne corne.KEYS_L) 0).Pairwise (fun x y => x < y) := by
  decide

/-- C9 amended: in each layout both KEYS_L and KEYS_R list, row by row from top
to bottom, the columns 0 to 4 in ascending column number (inner to outer).  The
index sequence of KEYS_R is strictly increasing.  In the index sequence of
KEYS_L every group of five consecutive entries is strictly decreasing, and
every index of a group is smaller than every index of the next group. -/
theorem keys_order_inner_to_outer (L : Layout) (hL : L ∈ layouts) :
    L.KEYS_L.body.map column
      = [0, 1, 2, 3, 4, 0, 1, 2, 3, 4, 0, 1, 2, 3, 4].map some ∧
    L.KEYS_R.body.map column
      = [0, 1, 2, 3, 4, 0, 1, 2, 3, 4, 0, 1, 2, 3, 4].map some ∧
    L.KEYS_L.body.map rowLetter = L.KEYS_R.body.map rowLetter ∧
    L.KEYS_L.body.map rowLetter
      = (['T', 'T', 'T', 'T', 'T', 'M', 'M', 'M', 'M', 'M',
          'B', 'B', 'B', 'B', 'B'].map some) ∧
    (groupIndices L L.KEYS_R).Pairwise (fun x y => x < y) ∧
    (∀ g < 3, (rowGroup (groupIndices L L.KEYS_L) g).length = 5 ∧
      (rowGroup (groupIndices L L.KEYS_L) g).Pairwise (fun x y => y < x)) ∧
    (∀ g < 2, ∀ x ∈ rowGroup (groupIndices L L.KEYS_L) g,
      ∀ y ∈ rowGroup (groupIndices L L.KEYS_L) (g + 1), x < y) := by
  rcases mem_layouts hL with rfl | rfl <;> decide

/-- Witness for the amended C9: the Corne Choc Pro header. -/
theorem keys_order_inner_to_outer_witness :
    corne ∈ layouts ∧
    (groupIndices corne corne.KEYS_R).Pairwise (fun x y => x < y) ∧
    ∀ g < 3, (rowGroup (groupIndices corne corne.KEYS_L) g).length = 5 ∧
      (rowGroup (groupIndices corne corne.KEYS_L) g).Pairwise (fun x y => y < x) :=
  have h := keys_order_inner_to_outer corne (by simp [layouts])
  ⟨by simp [layouts], h.2.2.2.2.1, h.2.2.2.2.2.1⟩

/-- C10: in each layout KEYS_R is the mirror image of KEYS_L: at every position
k from 0 to 14 the k-th name of KEYS_R is the mirror of the k-th name of KEYS_L,
a right-hand key with the same row letter (T, M or B) and the same column
number as that left-hand key, and the k-th index of KEYS_R is the index of that
mirrored name. -/
theorem keys_r_mirror_of_keys_l (L : Layout) (hL : L ∈ layouts) :
    L.KEYS_R.body = L.KEYS_L.body.map mirror ∧
    L.KEYS_L.body.length = 15 ∧
    ∀ k < 15, ∃ l ∈ L.KEYS_L.body, ∃ r ∈ L.KEYS_R.body,
      L.KEYS_L.body[k]? = some l ∧ L.KEYS_R.body[k]? = some r ∧
      r = mirror l ∧ hand l = some 'L' ∧ hand r = some 'R' ∧
      rowLetter r = rowLetter l ∧
      rowLetter l ∈ [some 'T', some 'M', some 'B'] ∧
      column r = column l ∧ (column l).isSome ∧
      (groupIndices L L.KEYS_L)[k]? = index L l ∧
      (groupIndices L L.KEYS_R)[k]? = index L (mirror l) := by
  rcases mem_layouts hL with rfl | rfl <;> decide

/-- Witness for C10: the xk42 header. -/
theorem keys_r_mirror_of_keys_l_witness :
    xk42 ∈ layouts ∧ xk42.KEYS_R.body = xk42.KEYS_L.body.map mirror :=
  ⟨by simp [layouts], (keys_r_mirror_of_keys_l xk42 (by simp [layouts])).1⟩

/-! ## Relations between the two layouts -/

theorem xk42_value_eq_keysBelow :
    ∀ d ∈ corne.defines, ∀ e ∈ xk42.defines, d.name = e.name →
      e.value = keysBelow corne d.value := by
  decide

theorem keysBelow_lt_iff :
    ∀ i ∈ indices corne, ∀ j ∈ indices corne,
      (i < j ↔ keysBelow corne i < keysBelow corne j) := by
  decide

theorem corne_row_of_define :
    ∀ d ∈ corne.defines, rowNumber d.name = some (d.value / 14) ∧
      d.value < 56 ∧ d.name ∈ rowNames corne (d.value / 14) := by
  decide

theorem xk42_row_of_define :
    ∀ d ∈ xk42.defines, rowNumber d.name = some (d.value / 12) ∧
      d.value < 48 ∧ d.name ∈ rowNames xk42 (d.value / 12) := by
  decide

theorem index_both {n : String} (hn : n ∈ names corne) :
    ∃ d ∈ corne.defines, ∃ e ∈ xk42.defines, d.name = n ∧ e.name = n ∧
      index corne n = some d.value ∧ index xk42 n = some e.value := by
  obtain ⟨i, hi⟩ := resolve_some_of_mem hn
  obtain ⟨j, hj⟩ := resolve_some_of_mem (names_corne_eq_xk42 ▸ hn : n ∈ names xk42)
  obtain ⟨d, hd, hdn, hdv⟩ := resolve_some_mem hi
  obtain ⟨e, he, hen, hev⟩ := resolve_some_mem hj
  refine ⟨d, hd, e, he, hdn, hen, ?_, ?_⟩
  · rw [hdv]; exact hi
  · rw [hev]; exact hj

/-- C11: the three grouping macros are the same sequences of names in both
headers, so the xk42 index sequence of each grouping is the Corne index sequence
with every Corne index replaced by the xk42 index of the same name; the numeric
sequences of the two layouts differ for each grouping. -/
theorem groupings_same_names_renumbered :
    (xk42.KEYS_L.body = corne.KEYS_L.body ∧ xk42.KEYS_R.body = corne.KEYS_R.body ∧
     xk42.THUMBS.body = corne.THUMBS.body) ∧
    ((groupIndices corne corne.KEYS_L).map (renumber corne xk42)
        = (groupIndices xk42 xk42.KEYS_L).map some ∧
     (groupIndices corne corne.KEYS_R).map (renumber corne xk42)
        = (groupIndices xk42 xk42.KEYS_R).map some ∧
     (groupIndices corne corne.THUMBS).map (renumber corne xk42)
        = (groupIndices xk42 xk42.THUMBS).map some) ∧
    (groupIndices xk42 xk42.KEYS_L = xk42.KEYS_L.body.filterMap (index xk42) ∧
     groupIndices xk42 xk42.KEYS_R = xk42.KEYS_R.body.filterMap (index xk42) ∧
     groupIndices xk42 xk42.THUMBS = xk42.THUMBS.body.filterMap (index xk42)) ∧
    (groupIndices xk42 xk42.KEYS_L ≠ groupIndices corne corne.KEYS_L ∧
     groupIndices xk42 xk42.KEYS_R ≠ groupIndices corne corne.KEYS_R ∧
     groupIndices xk42 xk42.THUMBS ≠ groupIndices corne corne.THUMBS) := by
  decide

/-- C12: LT0 resolves to 5 in both layouts, RT0 resolves to 7 in the Corne Choc
Pro layout and to 6 in the xk42 layout; so RT0 - LT0 is 2 in Corne, where the
one index between the hands, 6, is unused, and 1 in xk42. -/
theorem lt0_rt0_values :
    index corne "LT0" = some 5 ∧ index xk42 "LT0" = some 5 ∧
    index corne "RT0" = some 7 ∧ index xk42 "RT0" = some 6 ∧
    difference corne "RT0" "LT0" = some 2 ∧
    difference xk42 "RT0" "LT0" = some 1 ∧
    6 ∉ indices corne ∧ nameOfIndex corne 6 = none := by
  decide

/-- C13: in each layout the three groupings are duplicate-free and pairwise
disjoint, as names and as indices, every grouped name is a key of the layout,
and together they hold 36 of the 42 keys: the keys in none of the groupings are
exactly LT5, LM5, LB5, RT5, RM5 and RB5. -/
theorem groupings_partition (L : Layout) (hL : L ∈ layouts) :
    (L.KEYS_L.body ++ L.KEYS_R.body ++ L.THUMBS.body).Nodup ∧
    (groupIndices L L.KEYS_L ++ groupIndices L L.KEYS_R
      ++ groupIndices L L.THUMBS).Nodup ∧
    (∀ n ∈ L.KEYS_L.body, n ∉ L.KEYS_R.body ∧ n ∉ L.THUMBS.body) ∧
    (∀ n ∈ L.KEYS_R.body, n ∉ L.THUMBS.body) ∧
    (∀ n ∈ L.KEYS_L.body ++ L.KEYS_R.body ++ L.THUMBS.body, n ∈ names L) ∧
    (L.KEYS_L.body ++ L.KEYS_R.body ++ L.THUMBS.body).length = 36 ∧
    (names L).length = 42 ∧ (ungrouped L).length = 6 ∧
    ∀ n, (n ∈ names L ∧ n ∉ L.KEYS_L.body ∧ n ∉ L.KEYS_R.body ∧
        n ∉ L.THUMBS.body) ↔
      n ∈ ["LT5", "LM5", "LB5", "RT5", "RM5", "RB5"] := by
  have hU : ungrouped L = ["LT5", "RT5", "LM5", "RM5", "LB5", "RB5"] := by
    rcases mem_layouts hL with rfl | rfl <;> decide
  have hrest : (L.KEYS_L.body ++ L.KEYS_R.body ++ L.THUMBS.body).Nodup ∧
      (groupIndices L L.KEYS_L ++ groupIndices L L.KEYS_R
        ++ groupIndices L L.THUMBS).Nodup ∧
      (∀ n ∈ L.KEYS_L.body, n ∉ L.KEYS_R.body ∧ n ∉ L.THUMBS.body) ∧
      (∀ n ∈ L.KEYS_R.body, n ∉ L.THUMBS.body) ∧
      (∀ n ∈ L.KEYS_L.body ++ L.KEYS_R.body ++ L.THUMBS.body, n ∈ names L) ∧
      (L.KEYS_L.body ++ L.KEYS_R.body ++ L.THUMBS.body).length = 36 ∧
      (names L).length = 42 := by
    rcases mem_layouts hL with rfl | rfl <;> decide
  obtain ⟨h1, h2, h3, h4, h5, h6, h7⟩ := hrest
  refine ⟨h1, h2, h3, h4, h5, h6, h7, by rw [hU]; rfl, fun n => ?_⟩
  have hmem : n ∈ ungrouped L ↔ (n ∈ names L ∧ n ∉ L.KEYS_L.body ∧
      n ∉ L.KEYS_R.body ∧ n ∉ L.THUMBS.body) := by
    unfold ungrouped
    rw [List.mem_filter, decide_eq_true_iff]
  rw [← hmem, hU]
  simp only [List.mem_cons, List.mem_singleton, List.not_mem_nil, or_false]
  tauto

/-- Witness for C13: the Corne Choc Pro header. -/
theorem groupings_partition_witness :
    corne ∈ layouts ∧
    (corne.KEYS_L.body ++ corne.KEYS_R.body ++ corne.THUMBS.body).Nodup ∧
    (ungrouped corne).length = 6 :=
  have h := groupings_partition corne (by simp [layouts])
  ⟨by simp [layouts], h.1, h.2.2.2.2.2.2.2.1⟩

/-- C14: the two layouts order the keys identically: for two key names a and b,
the Corne index of a is below that of b exactly when the xk42 index of a is
below that of b; and the xk42 index of every key is the number of keys whose
Corne index is strictly smaller than that key's Corne index. -/
theorem xk42_gap_free_renumbering (a b : String)
    (ha : a ∈ names corne) (hb : b ∈ names corne) :
    ∃ i j i' j', index corne a = some i ∧ index corne b = some j ∧
      index xk42 a = some i' ∧ index xk42 b = some j' ∧
      (i < j ↔ i' < j') ∧ i' = keysBelow corne i ∧ j' = keysBelow corne j := by
  obtain ⟨d, hd, e, he, hdn, hen, hdi, hei⟩ := index_both ha
  obtain ⟨d', hd', e', he', hdn', hen', hdi', hei'⟩ := index_both hb
  have hr : e.value = keysBelow corne d.value :=
    xk42_value_eq_keysBelow d hd e he (hdn.trans hen.symm)
  have hr' : e'.value = keysBelow corne d'.value :=
    xk42_value_eq_keysBelow d' hd' e' he' (hdn'.trans hen'.symm)
  refine ⟨d.value, d'.value, e.value, e'.value, hdi, hdi', hei, hei', ?_, hr, hr'⟩
  rw [hr, hr']
  exact keysBelow_lt_iff d.value (List.mem_map.2 ⟨d, hd, rfl⟩)
    d'.value (List.mem_map.2 ⟨d', hd', rfl⟩)

/-- Witness for C14: the keys LH0 and RH0. -/
theorem xk42_gap_free_renumbering_witness :
    ∃ i j i' j', index corne "LH0" = some i ∧ index corne "RH0" = some j ∧
      index xk42 "LH0" = some i' ∧ index xk42 "RH0" = some j' ∧
      (i < j ↔ i' < j') ∧ i' = keysBelow corne i ∧ j' = keysBelow corne j :=
  xk42_gap_free_renumbering "LH0" "RH0" (by decide) (by decide)

/-- C15: the row of a key is its index divided by the row stride: a key whose
name encodes row r (0 for T, 1 for M, 2 for B, 3 for H), which is also the row
section it is defined in, has Corne index i with i / 14 = r and xk42 index i'
with i' / 12 = r; every Corne index is below 56 and every xk42 index below 48. -/
theorem row_by_division (n : String) (hn : n ∈ names corne) :
    ∃ r i i', rowNumber n = some r ∧ n ∈ rowNames corne r ∧ n ∈ rowNames xk42 r ∧
      index corne n = some i ∧ index xk42 n = some i' ∧
      i / 14 = r ∧ i' / 12 = r ∧ i < 56 ∧ i' < 48 := by
  obtain ⟨d, hd, e, he, hdn, hen, hdi, hei⟩ := index_both hn
  obtain ⟨c1, c2, c3⟩ := corne_row_of_define d hd
  obtain ⟨x1, x2, x3⟩ := xk42_row_of_define e he
  rw [hdn] at c1 c3
  rw [hen] at x1 x3
  have hrow : e.value / 12 = d.value / 14 := by
    rw [c1] at x1
    exact (Option.some.inj x1).symm
  refine ⟨d.value / 14, d.value, e.value, c1, c3, ?_, hdi, hei, rfl, hrow, c2, x2⟩
  rw [← hrow]
  exact x3

/-- Witness for C15: the thumb key RH2. -/
theorem row_by_division_witness :
    ∃ r i i', rowNumber "RH2" = some r ∧ "RH2" ∈ rowNames corne r ∧
      "RH2" ∈ rowNames xk42 r ∧
      index corne "RH2" = some i ∧ index xk42 "RH2" = some i' ∧
      i / 14 = r ∧ i' / 12 = r ∧ i < 56 ∧ i' < 48 :=
  row_by_division "RH2" (by decide)

end KeyLabels
